import Mathlib

/-!
Shallow embedding of the realtime transport layer of the Calljmp React Native
SDK: the `Signal` connection multiplexer (memoized connect, reconnect backoff,
lease-based auto-disconnect, message dispatch), the `Realtime` adapter's
correlation handlers, the `EventSource` streaming client's frame parser and
listener dispatch, and the `asyncGenerator` push/pull channel.

The definitions are translated from the TypeScript source.  JS strings are
embedded as `List Char`, timer callbacks as explicit events carrying the
elapsed time, and JS exceptions as `Except`/`Option` results.  `JSON.parse`
of a data payload is external decoding and is left as the raw joined text.
-/

namespace Calljmp

/-! ### Async channel (`src/utils/async-generator.ts`)

State of one `asyncGenerator` channel: `queue` is the buffered values,
`waiters` the number of pending consumer promises, `closed` and `errorValue`
the latched flags.  `chanPull` is one iteration of the generator loop. -/

structure ChanState (T E : Type) where
  queue : List T
  waiters : Nat
  closed : Bool
  errorValue : Option E
deriving DecidableEq

/-- `wakeAll()` resolves every pending waiter. -/
def wakeAll {T E} (st : ChanState T E) : ChanState T E :=
  {st with waiters := 0}

/-- `controller.end()`. -/
def chanEnd {T E} (st : ChanState T E) : ChanState T E :=
  if st.closed then st else wakeAll {st with closed := true}

/-- `controller.error(err)`; the argument models `err ?? new Error(...)`. -/
def chanError {T E} (e : E) (st : ChanState T E) : ChanState T E :=
  if st.closed || st.errorValue.isSome then st
  else wakeAll {st with errorValue := some e, closed := true}

/-- `controller.push(value)`; `.error` is the synchronous overflow throw. -/
def chanPush {T E} (highWaterMark : Option Nat) (v : T) (st : ChanState T E) :
    Except String (ChanState T E) :=
  if st.closed || st.errorValue.isSome then .ok st
  else
    match highWaterMark with
    | some h =>
      if h ≤ st.queue.length ∧ st.waiters = 0 then .error "buffer overflow"
      else if 0 < st.waiters then
        .ok {st with queue := st.queue ++ [v], waiters := st.waiters - 1}
      else .ok {st with queue := st.queue ++ [v]}
    | none =>
      if 0 < st.waiters then
        .ok {st with queue := st.queue ++ [v], waiters := st.waiters - 1}
      else .ok {st with queue := st.queue ++ [v]}

/-- Outcome of one consumer pull on the generator. -/
inductive PullStep (T E : Type) where
  | value (v : T)
  | done
  | raised (e : E)
  | blocked
deriving DecidableEq

/-- One iteration of the generator's `for (;;)` loop: the error check comes
first, then the queue, then the closed flag, else the pull blocks.  On a
throw or a normal break the `finally` block closes the channel, clears the
queue and wakes all waiters. -/
def chanPull {T E} (st : ChanState T E) : PullStep T E × ChanState T E :=
  match st.errorValue with
  | some e => (.raised e, wakeAll {st with closed := true, queue := []})
  | none =>
    match st.queue with
    | v :: rest => (.value v, {st with queue := rest})
    | [] =>
      if st.closed then (.done, wakeAll {st with closed := true, queue := []})
      else (.blocked, {st with waiters := st.waiters + 1})

/-- A fresh channel. -/
def chanInit (T E : Type) : ChanState T E := ⟨[], 0, false, none⟩

/-- Concrete channel reached by `push 7` on a fresh `ChanState Nat String`. -/
def chanEx : ChanState Nat String := ⟨[7], 0, false, none⟩

/-! ### `EventSource.dispatch` listener loop (streaming client) -/

/-- One registered listener is abstracted by its identity `lid` and by
whether invoking it on the dispatched event throws (`throws = some e`). -/
structure ESListener (E : Type) where
  lid : Nat
  throws : Option E
deriving DecidableEq

/-- The `for (const handler of handlers)` loop: returns the listeners invoked
in order, and the exception escaping `dispatch`, if any. -/
def esDispatchGo {E} : List (ESListener E) → List Nat × Option E
  | [] => ([], none)
  | h :: rest =>
    match h.throws with
    | some e => ([h.lid], some e)
    | none =>
      let r := esDispatchGo rest
      (h.lid :: r.1, r.2)

/-- `EventSource.dispatch`: `if (!handlers.length) return;` then the loop. -/
def esDispatch {E} (hs : List (ESListener E)) : List Nat × Option E :=
  if hs.isEmpty then ([], none) else esDispatchGo hs

/-- Listener list where the first listener throws. -/
def esListenersEx : List (ESListener String) := [⟨0, some "boom"⟩, ⟨1, none⟩]

/-! ### `Signal._handleMessage` dispatch (connection multiplexer) -/

/-- `SignalResultOptions` from the source. -/
structure SignalResultOptions where
  handled : Bool
  autoRemove : Bool
deriving DecidableEq

/-- Result of invoking one handler on the dispatched message: a thrown
exception, or a returned value (a `SignalResult`, or `undefined`). -/
inductive HandlerBehavior (E : Type) where
  | throws (e : E)
  | returns (r : Option SignalResultOptions)
deriving DecidableEq

/-- One registered handler, abstracted by its identity `hid` and the result
of invoking it on the dispatched message. -/
structure SigHandler (E : Type) where
  hid : Nat
  behavior : HandlerBehavior E
deriving DecidableEq

/-- A handler that neither throws nor stops propagation. -/
def nonStopping {E} (g : SigHandler E) : Bool :=
  match g.behavior with
  | .throws _ => false
  | .returns none => true
  | .returns (some r) => !r.handled

/-- The `for (const handler of handlers)` loop of `_handleMessage`, over the
snapshot `hs`, threading the live registry `reg` (for `off` on `autoRemove`).
Returns the invoked handler ids in order, the final registry, and the
exception escaping the loop, if any. -/
def handleMsgCore {E} : List (SigHandler E) → List (SigHandler E) →
    List Nat × List (SigHandler E) × Option E
  | [], reg => ([], reg, none)
  | h :: rest, reg =>
    match h.behavior with
    | .throws e => ([h.hid], reg, some e)
    | .returns res =>
      let reg2 := match res with
        | some r => if r.autoRemove then reg.filter (fun g => g.hid ≠ h.hid) else reg
        | none => reg
      let stop : Bool := match res with
        | some r => r.handled
        | none => false
      if stop then ([h.hid], reg2, none)
      else
        let r := handleMsgCore rest reg2
        (h.hid :: r.1, r.2)

/-- `Signal._handleMessage`: `JSON.parse` first (`parseOk = false` models a
malformed payload), then the handler loop, all inside `try/catch`; the catch
only logs (`logged = true` in the third component). -/
def handleMessage {E} (parseOk : Bool) (snapshot reg : List (SigHandler E)) :
    List Nat × List (SigHandler E) × Bool :=
  if parseOk then
    match handleMsgCore snapshot reg with
    | (inv, reg2, some _) => (inv, reg2, true)
    | (inv, reg2, none) => (inv, reg2, false)
  else ([], reg, true)

/-- Handler registry where the second handler throws. -/
def sigHandlersEx : List (SigHandler String) :=
  [⟨0, .returns none⟩, ⟨1, .throws "boom"⟩, ⟨2, .returns none⟩]

/-! ### `Signal` leases and auto-disconnect -/

/-- The lease-relevant `Signal` state: `locks` holds the lock ids of the
lease set, `timer = some d` means an auto-disconnect timeout scheduled with
delay `d` is pending, `connected` is the `connected` getter. -/
structure LeaseState where
  locks : List String
  timer : Option Nat
  connected : Bool
  autoDisconnectDelay : Nat
deriving DecidableEq

/-- Events acting on the lease state.  `timerFire t` is the scheduled
`setTimeout` callback running `t` milliseconds after it was armed. -/
inductive LeaseEvent where
  | acquire (lockId : String)
  | release (lockId : String)
  | socketOpen
  | timerFire (elapsed : Nat)
deriving DecidableEq

/-- `Signal._clearAutoDisconnect`. -/
def clearAutoDisconnect (st : LeaseState) : LeaseState :=
  {st with timer := none}

/-- `Signal._scheduleAutoDisconnect`: clear, then arm only if connected and
the lease set is empty. -/
def scheduleAutoDisconnect (st : LeaseState) : LeaseState :=
  let st1 := clearAutoDisconnect st
  if st1.connected && st1.locks.isEmpty then
    {st1 with timer := some st1.autoDisconnectDelay}
  else st1

/-- `Signal.acquireLock`: store the lock, cancel any pending timer. -/
def acquireLock (lockId : String) (st : LeaseState) : LeaseState :=
  clearAutoDisconnect {st with locks := lockId :: st.locks}

/-- `Signal.releaseLock`: delete the lock, re-evaluate the timer. -/
def releaseLock (lockId : String) (st : LeaseState) : LeaseState :=
  scheduleAutoDisconnect {st with locks := st.locks.erase lockId}

/-- `onopen` handler: the socket is now open and `_scheduleAutoDisconnect`
runs. -/
def socketOpenStep (st : LeaseState) : LeaseState :=
  scheduleAutoDisconnect {st with connected := true}

/-- The armed `setTimeout` callback: it can only run once the scheduled
delay has elapsed, and it re-checks `connected && locks.size === 0` before
calling `_disconnect`.  The boolean reports whether the socket was
auto-disconnected by this step. -/
def timerFireStep (elapsed : Nat) (st : LeaseState) : LeaseState × Bool :=
  match st.timer with
  | none => (st, false)
  | some d =>
    if elapsed < d then (st, false)
    else
      let st1 := {st with timer := none}
      if st1.connected && st1.locks.isEmpty then
        ({st1 with connected := false}, true)
      else (st1, false)

/-- One step of the lease-state machine. -/
def leaseStep (st : LeaseState) : LeaseEvent → LeaseState × Bool
  | .acquire i => (acquireLock i st, false)
  | .release i => (releaseLock i st, false)
  | .socketOpen => (socketOpenStep st, false)
  | .timerFire t => timerFireStep t st

/-- The `Signal` constructor state: no locks, no timer, default 60 s delay. -/
def leaseInit : LeaseState :=
  {locks := [], timer := none, connected := false, autoDisconnectDelay := 60000}

/-- The lease invariant along a trace: every step that auto-disconnects has
an empty lease set and is a timer callback firing no earlier than its
scheduled delay; every `acquireLock` leaves no pending timer; and a pending
timer always coexists with an empty lease set. -/
def leaseTraceOK (st : LeaseState) : List LeaseEvent → Prop
  | [] => True
  | e :: es =>
    ((leaseStep st e).2 = true →
        st.locks = [] ∧ ∃ d t, st.timer = some d ∧ e = .timerFire t ∧ d ≤ t)
    ∧ (∀ i, e = .acquire i → (leaseStep st e).1.timer = none)
    ∧ ((leaseStep st e).1.timer.isSome → (leaseStep st e).1.locks = [])
    ∧ leaseTraceOK (leaseStep st e).1 es

/-! ### `Signal.connect` memoization -/

/-- The connect-relevant `Signal` state: `_connectionPromise` (with promise
identity), whether `_ws` is non-null, how many times `_performConnect` was
invoked, and a fresh-promise counter. -/
structure ConnState where
  connectionPromise : Option Nat
  wsLive : Bool
  performConnectCalls : Nat
  nextPromiseId : Nat
deriving DecidableEq

/-- What one `connect()` caller gets back. -/
inductive ConnectOutcome where
  | awaitShared (p : Nat)
  | alreadyConnected
deriving DecidableEq

/-- `Signal.connect`: return the in-flight promise if there is one; return
immediately if `_ws` is set; otherwise start `_performConnect` (counted) and
memoize its promise. -/
def connectCall (st : ConnState) : ConnState × ConnectOutcome :=
  match st.connectionPromise with
  | some p => (st, .awaitShared p)
  | none =>
    if st.wsLive then (st, .alreadyConnected)
    else
      let p := st.nextPromiseId
      ({st with connectionPromise := some p,
                performConnectCalls := st.performConnectCalls + 1,
                nextPromiseId := p + 1},
       .awaitShared p)

/-- `n` consecutive `connect()` calls with no settlement in between
(the concurrent-callers window). -/
def connectCalls (st : ConnState) : Nat → ConnState × List ConnectOutcome
  | 0 => (st, [])
  | n + 1 =>
    let r := connectCall st
    let rs := connectCalls r.1 n
    (rs.1, r.2 :: rs.2)

/-- An idle `Signal` (no promise, no socket). -/
def connEx : ConnState := ⟨none, false, 0, 0⟩

/-! ### `Signal` reconnect backoff -/

/-- The reconnect-relevant `Signal` fields. -/
structure ReconnState where
  reconnectAttempts : Nat
  maxReconnectAttempts : Nat
  reconnectDelay : Nat
deriving DecidableEq

/-- `Signal._attemptReconnect`: bump the counter, compute
`min(_reconnectDelay * 2 ** (attempts - 1), 30000)`. -/
def attemptReconnect (st : ReconnState) : ReconnState × Nat :=
  let attempts := st.reconnectAttempts + 1
  let delay := min (st.reconnectDelay * 2 ^ (attempts - 1)) 30000
  ({st with reconnectAttempts := attempts}, delay)

/-- The `onclose` handler: reconnect (returning the scheduled delay) only on
an abnormal close code below the attempt cap. -/
def onCloseEvt (code : Nat) (st : ReconnState) : ReconnState × Option Nat :=
  if code ≠ 1000 ∧ st.reconnectAttempts < st.maxReconnectAttempts then
    let r := attemptReconnect st
    (r.1, some r.2)
  else (st, none)

/-- The `onopen` handler resets the counter and the base delay. -/
def onOpenEvt (st : ReconnState) : ReconnState :=
  {st with reconnectAttempts := 0, reconnectDelay := 1000}

/-- The constructor state. -/
def reconnInit : ReconnState :=
  {reconnectAttempts := 0, maxReconnectAttempts := 10, reconnectDelay := 1000}

/-- `k` consecutive closes with the same close code, collecting the
scheduled reconnect delays. -/
def closesRun (code : Nat) : ReconnState → Nat → ReconnState × List (Option Nat)
  | st, 0 => (st, [])
  | st, k + 1 =>
    let r := onCloseEvt code st
    let rs := closesRun code r.1 k
    (rs.1, r.2 :: rs.2)

/-! ### `Realtime` subscription correlation (`src/realtime.ts`)

Each `_subscribe` call registers one `handleAck`, one `handleError` and one
`handleData` closure with the `Signal`; a closure is identified here by the
correlation id (`subscriptionId`) of the subscription that created it, so
the owner lists embed the `Signal`'s per-type handler registries restricted
to this adapter.  `subscriptionId`s are freshly generated UUIDs. -/

structure RtSub where
  sid : String
  active : Bool
deriving DecidableEq

structure RtState where
  subs : List RtSub
  ackOwners : List String
  errOwners : List String
  dataOwners : List String
  lockHeld : Bool
deriving DecidableEq

/-- `removeSubscription` for the subscription with correlation id `x`:
`off` its three handlers, deactivate and drop the subscription, and release
the signal lock when it was the last one. -/
def removeSubscription (x : String) (st : RtState) : RtState :=
  let subs := st.subs.filter (fun s => s.sid ≠ x)
  {subs := subs,
   ackOwners := st.ackOwners.filter (fun o => o ≠ x),
   errOwners := st.errOwners.filter (fun o => o ≠ x),
   dataOwners := st.dataOwners.filter (fun o => o ≠ x),
   lockHeld := if subs.isEmpty then false else st.lockHeld}

/-- Delivery of `error{id: msgId}` over the error-handler snapshot: each
`handleError` closure ignores a mismatched id; the first matching one runs
`removeSubscription` and returns `SignalResult.handled`, stopping the loop.
The second component lists the subscriptions deactivated by the message. -/
def deliverErrorGo (msgId : String) (st : RtState) :
    List String → RtState × List String
  | [] => (st, [])
  | o :: os =>
    if msgId ≠ o then deliverErrorGo msgId st os
    else (removeSubscription o st, [o])

def deliverError (msgId : String) (st : RtState) : RtState × List String :=
  deliverErrorGo msgId st st.errOwners

/-- A matching `handleAck` only `off`s its own ack and error handlers. -/
def ackRemove (x : String) (st : RtState) : RtState :=
  {st with ackOwners := st.ackOwners.filter (fun o => o ≠ x),
           errOwners := st.errOwners.filter (fun o => o ≠ x)}

/-- Delivery of `ack{id: msgId}` over the ack-handler snapshot. -/
def deliverAckGo (msgId : String) (st : RtState) : List String → RtState
  | [] => st
  | o :: os =>
    if msgId ≠ o then deliverAckGo msgId st os
    else ackRemove o st

def deliverAck (msgId : String) (st : RtState) : RtState :=
  deliverAckGo msgId st st.ackOwners

/-- Two live subscriptions with correlation ids `"x"` and `"z"`. -/
def rtEx : RtState :=
  ⟨[⟨"x", true⟩, ⟨"z", true⟩], ["x", "z"], ["x", "z"], ["x", "z"], true⟩

/-! ### `EventSource` frame parser

The buffer is a `List Char`.  `startsWithSeq pat s` is `s.startsWith(pat)`,
`trimChars` is `String.prototype.trim` restricted to ASCII whitespace, and
`stripField f line` is `line.replace(/f:?\s*/, '')` for a line already known
to start with `f`. -/

def startsWithSeq : List Char → List Char → Bool
  | [], _ => true
  | _ :: _, [] => false
  | p :: ps, c :: cs => p = c && startsWithSeq ps cs

def containsSeq (pat : List Char) : List Char → Bool
  | [] => startsWithSeq pat []
  | c :: cs => startsWithSeq pat (c :: cs) || containsSeq pat cs

def isJsWs (c : Char) : Bool :=
  c = ' ' || c = '\t' || c = '\n' || c = '\r' || c = '\x0b' || c = '\x0c'

def trimChars (s : List Char) : List Char :=
  ((s.dropWhile isJsWs).reverse.dropWhile isJsWs).reverse

def stripField (f : List Char) (line : List Char) : List Char :=
  let rest := line.drop f.length
  let rest1 := match rest with
    | ':' :: r => r
    | r => r
  rest1.dropWhile isJsWs

/-- Value of the longest digit run at the head of `s`, if the head is a
digit. -/
def digitsVal : List Char → Nat → Nat
  | c :: cs, acc => if c.isDigit then digitsVal cs (acc * 10 + (c.toNat - 48)) else acc
  | [], acc => acc

def digitsPre : List Char → Option Nat
  | [] => none
  | c :: cs => if c.isDigit then some (digitsVal (c :: cs) 0) else none

/-- `parseInt(s, 10)`: skip whitespace, optional sign, leading digit run;
`none` is `NaN`. -/
def parseIntJS (s0 : List Char) : Option Int :=
  let s := s0.dropWhile isJsWs
  match s with
  | '-' :: r => (digitsPre r).map (fun n => -(n : Int))
  | '+' :: r => (digitsPre r).map (fun n => (n : Int))
  | r => (digitsPre r).map (fun n => (n : Int))

/-- `EventSource._detectNewlineChar`: first of CRLF, LF, CR occurring in the
response. -/
def detectNewlineChar (response : List Char) : Option (List Char) :=
  if containsSeq ['\r', '\n'] response then some ['\r', '\n']
  else if containsSeq ['\n'] response then some ['\n']
  else if containsSeq ['\r'] response then some ['\r']
  else none

/-- Last start position of `pat` in `s` (`String.prototype.lastIndexOf`). -/
def lastOccur (pat s : List Char) : Option Nat :=
  ((List.range (s.length + 1)).filter
    (fun i => startsWithSeq pat (s.drop i))).getLast?

/-- `EventSource._getLastDoubleNewlineIndex`: `-1` without a detected line
ending or occurrence, else the index one past the last double newline. -/
def lastDoubleNewlineIdx : Option (List Char) → List Char → Int
  | none, _ => -1
  | some l, s =>
    let dbl := l ++ l
    match lastOccur dbl s with
    | none => -1
    | some i => (i : Int) + dbl.length

/-- `String.prototype.split(sep)` (fuel-driven so that it evaluates by
kernel reduction; the fuel is always sufficient). -/
def splitOnSeqGo : Nat → List Char → List Char → List (List Char)
  | 0, _, s => [s]
  | _ + 1, _, [] => [[]]
  | n + 1, sep, c :: cs =>
    if !sep.isEmpty && startsWithSeq sep (c :: cs) then
      [] :: splitOnSeqGo n sep (cs.drop (sep.length - 1))
    else
      match splitOnSeqGo n sep cs with
      | [] => [[c]]
      | g :: gs => (c :: g) :: gs

def splitOnSeq (sep s : List Char) : List (List Char) :=
  splitOnSeqGo (s.length + 1) sep s

/-- The parse accumulator (`ParseAccumulator`): in-progress event type, last
seen event id, accumulated data lines. -/
structure ParseAcc where
  type : Option (List Char)
  id : Option (List Char)
  data : List (List Char)
deriving DecidableEq

/-- The parser-relevant `EventSource` state. -/
structure ESState where
  lineEnding : Option (List Char)
  lastIndexProcessed : Nat
  interval : Int
  lastEventId : Option (List Char)
deriving DecidableEq

/-- Events dispatched by `_flushEvent`.  A `data` event carries the joined
data lines (the argument of the external `JSON.parse`); an `error` event
carries the lines joined with newlines. -/
inductive ESEvent where
  | dataEvt (payload : List Char)
  | openEvt
  | closeEvt
  | errorEvt (message : List Char)
deriving DecidableEq

/-- `acc.type || 'data'`: in JS both `undefined` and the empty string are
falsy. -/
def effectiveType : Option (List Char) → List Char
  | none => "data".toList
  | some [] => "data".toList
  | some l => l

/-- `EventSource._flushEvent`: flush only a non-empty data buffer; dispatch
by effective type (unknown types dispatch nothing); reset type and data. -/
def flushEvent (acc : ParseAcc) : List ESEvent × ParseAcc :=
  if acc.data.isEmpty then ([], acc)
  else
    let t := effectiveType acc.type
    let evs :=
      if t = "data".toList then [ESEvent.dataEvt acc.data.flatten]
      else if t = "open".toList then [ESEvent.openEvt]
      else if t = "close".toList then [ESEvent.closeEvt]
      else if t = "error".toList then
        [ESEvent.errorEvt ((acc.data.intersperse ['\n']).flatten)]
      else []
    (evs, {acc with type := none, data := []})

/-- One iteration of the `for` loop over the split lines: `event`, `retry`,
`data`, `id` field handling, blank-line flush; any other line is ignored. -/
def procLine (acc : ParseAcc) (st : ESState) (rawLine : List Char) :
    ParseAcc × ESState × List ESEvent :=
  let line := trimChars rawLine
  if startsWithSeq "event".toList line then
    ({acc with type := some (stripField "event".toList line)}, st, [])
  else if startsWithSeq "retry".toList line then
    match parseIntJS (stripField "retry".toList line) with
    | some v => (acc, {st with interval := v}, [])
    | none => (acc, st, [])
  else if startsWithSeq "data".toList line then
    ({acc with data := acc.data ++ [stripField "data".toList line]}, st, [])
  else if startsWithSeq "id".toList line then
    let idv := stripField "id".toList line
    let newId := if idv.isEmpty then none else some idv
    ({acc with id := newId}, {st with lastEventId := newId}, [])
  else if line.isEmpty then
    let r := flushEvent acc
    (r.2, st, r.1)
  else (acc, st, [])

def procLines : ParseAcc → ESState → List (List Char) → ESState × List ESEvent
  | _, st, [] => (st, [])
  | acc, st, l :: ls =>
    let r := procLine acc st l
    let rs := procLines r.1 r.2.1 ls
    (rs.1, r.2.2 ++ rs.2)

/-- `this._lineEndingCharacter`, updated by detection when still unset. -/
def computeLineEnding (st : ESState) (response : List Char) : Option (List Char) :=
  match st.lineEnding with
  | some l => some l
  | none => detectNewlineChar response

/-- `EventSource._processIncoming`: detect the line ending, take the slice
from the last processed index up to the last double-newline boundary (early
return if there is none beyond it), split it into lines and run the field
loop with a fresh accumulator. -/
def processIncoming (st : ESState) (response : List Char) : ESState × List ESEvent :=
  let le := computeLineEnding st response
  let idx := lastDoubleNewlineIdx le response
  if idx ≤ (st.lastIndexProcessed : Int) then ({st with lineEnding := le}, [])
  else
    match le with
    | none => ({st with lineEnding := le}, [])
    | some l =>
      let idxN := idx.toNat
      procLines {type := none, id := none, data := []}
        {st with lineEnding := le, lastIndexProcessed := idxN}
        (splitOnSeq l ((response.take idxN).drop st.lastIndexProcessed))

/-- A freshly constructed `EventSource` parser state (default 5000 ms
polling interval, no line-ending override). -/
def esInit : ESState :=
  {lineEnding := none, lastIndexProcessed := 0, interval := 5000, lastEventId := none}

/-! ## Theorems -/

/-! ### Async channel -/

theorem chanPush_noop_of_flag {T E} (hwm : Option Nat) (v : T) (st : ChanState T E)
    (h : (st.closed || st.errorValue.isSome) = true) : chanPush hwm v st = .ok st := by
  simp [chanPush, h]

/-- C9: on every channel, `push` after `end()` or `error()` is a silent
no-op: it returns without throwing (even when the buffer already sits at the
high-water mark, since the closed check precedes the overflow check) and the
queue, waiter count, closed flag and latched error are all unchanged, so the
pushed value is dropped. -/
theorem chan_push_after_close_noop {T E} (hwm : Option Nat) (v : T)
    (st : ChanState T E) (e : E) :
    chanPush hwm v (chanEnd st) = .ok (chanEnd st)
  ∧ chanPush hwm v (chanError e st) = .ok (chanError e st) := by
  constructor
  · apply chanPush_noop_of_flag
    unfold chanEnd wakeAll
    split <;> simp_all
  · apply chanPush_noop_of_flag
    unfold chanError wakeAll
    split <;> simp_all

/-- C7 counterexample: push `7` into a fresh channel, then `error("boom")`;
the very next pull raises the error instead of delivering the buffered `7`,
so buffered values are not drained before the latched error is raised. -/
theorem chan_error_latching_cex :
    chanPush none (7 : Nat) (chanInit Nat String) = .ok chanEx
  ∧ (chanPull (chanError "boom" chanEx)).1 = PullStep.raised "boom"
  ∧ (chanPull (chanError "boom" chanEx)).1 ≠ PullStep.value 7 :=
  ⟨rfl, rfl, by decide⟩

/-- C7 (amended): on a channel that has not ended and has no latched error,
`error(err)` latches `err` and the next (or current) pull raises it
immediately — buffered values pushed before the error are discarded, not
delivered first; afterwards a second `error`, a `push` (even at the
high-water mark) and an `end` all have no further effect. -/
theorem chan_error_latching {T E} (st : ChanState T E) (e e2 : E) (v : T)
    (hwm : Option Nat) (hc : st.closed = false) (he : st.errorValue = none) :
    (chanPull (chanError e st)).1 = .raised e
  ∧ chanError e2 (chanError e st) = chanError e st
  ∧ chanPush hwm v (chanError e st) = .ok (chanError e st)
  ∧ chanEnd (chanError e st) = chanError e st := by
  have hst : chanError e st =
      {st with errorValue := some e, closed := true, waiters := 0} := by
    simp [chanError, hc, he, wakeAll]
  rw [hst]
  refine ⟨?_, ?_, ?_, ?_⟩
  · simp [chanPull]
  · simp [chanError]
  · simp [chanPush]
  · simp [chanEnd]

theorem chan_error_latching_witness :
    (chanPull (chanError "boom" chanEx)).1 = .raised "boom"
  ∧ chanError "later" (chanError "boom" chanEx) = chanError "boom" chanEx
  ∧ chanPush (some 1) (9 : Nat) (chanError "boom" chanEx) = .ok (chanError "boom" chanEx)
  ∧ chanEnd (chanError "boom" chanEx) = chanError "boom" chanEx :=
  chan_error_latching chanEx "boom" "later" 9 (some 1) rfl rfl

/-! ### `EventSource.dispatch` -/

theorem esDispatchGo_clean {E} :
    ∀ hs : List (ESListener E), (∀ g ∈ hs, g.throws = none) →
      esDispatchGo hs = (hs.map ESListener.lid, none) := by
  intro hs
  induction hs with
  | nil => intro _; rfl
  | cons h t ih =>
    intro hall
    have hh : h.throws = none := hall h (by simp)
    have ht := ih (fun g hg => hall g (by simp [hg]))
    simp [esDispatchGo, hh, ht]

theorem esDispatchGo_throw {E} (h : ESListener E) (e : E) (post : List (ESListener E))
    (hthrow : h.throws = some e) :
    ∀ pre : List (ESListener E), (∀ g ∈ pre, g.throws = none) →
      esDispatchGo (pre ++ h :: post) = (pre.map ESListener.lid ++ [h.lid], some e) := by
  intro pre
  induction pre with
  | nil => intro _; simp [esDispatchGo, hthrow]
  | cons g t ih =>
    intro hall
    have hg : g.throws = none := hall g (by simp)
    have ht := ih (fun x hx => hall x (by simp [hx]))
    simp [esDispatchGo, hg, ht]

/-- C8 counterexample: with two registered listeners where the first one
throws, `dispatch` invokes only the first listener and the exception escapes
the dispatch loop, so the second listener never fires. -/
theorem eventsource_dispatch_isolation_cex :
    esDispatch esListenersEx = ([0], some "boom")
  ∧ (1 : Nat) ∉ (esDispatch esListenersEx).1 :=
  ⟨rfl, by decide⟩

/-- C8 (amended): `dispatch` invokes the listeners in registration order,
but it does not isolate listener exceptions: the listeners up to and
including the first throwing one are invoked, the exception propagates out
of `dispatch`, and the remaining listeners are not invoked; when no listener
throws, all listeners fire in registration order. -/
theorem eventsource_dispatch_isolation {E} (pre post : List (ESListener E))
    (h : ESListener E) (e : E)
    (hpre : ∀ g ∈ pre, g.throws = none) (hthrow : h.throws = some e) :
    esDispatch (pre ++ h :: post) = (pre.map ESListener.lid ++ [h.lid], some e)
  ∧ ∀ hs : List (ESListener E), (∀ g ∈ hs, g.throws = none) →
      esDispatch hs = (hs.map ESListener.lid, none) := by
  constructor
  · have hne : (pre ++ h :: post).isEmpty = false := by
      cases pre <;> simp [List.isEmpty]
    rw [esDispatch, hne]
    simpa using esDispatchGo_throw h e post hthrow pre hpre
  · intro hs hall
    cases hs with
    | nil => rfl
    | cons a t =>
      rw [esDispatch]
      simpa using esDispatchGo_clean (a :: t) hall

theorem eventsource_dispatch_isolation_witness :
    esDispatch [(⟨5, none⟩ : ESListener String), ⟨6, some "x"⟩, ⟨7, none⟩] =
      ([5, 6], some "x") := by
  have h := eventsource_dispatch_isolation (E := String) [⟨5, none⟩] [⟨7, none⟩]
    ⟨6, some "x"⟩ "x" (by decide) rfl
  exact h.1.trans (by decide)

/-! ### `Signal._handleMessage` -/

theorem handleMsgCore_throw {E} (h : SigHandler E) (e : E) (post : List (SigHandler E))
    (hthrow : h.behavior = .throws e) :
    ∀ (pre reg : List (SigHandler E)), (∀ g ∈ pre, nonStopping g = true) →
      (handleMsgCore (pre ++ h :: post) reg).1 = pre.map SigHandler.hid ++ [h.hid]
    ∧ (handleMsgCore (pre ++ h :: post) reg).2.2 = some e := by
  intro pre
  induction pre with
  | nil => intro reg _; simp [handleMsgCore, hthrow]
  | cons g t ih =>
    intro reg hall
    have hg : nonStopping g = true := hall g (by simp)
    cases hb : g.behavior with
    | throws e2 => simp [nonStopping, hb] at hg
    | returns res =>
      cases res with
      | none =>
        have ih2 := ih reg (fun x hx => hall x (by simp [hx]))
        constructor <;> simp [handleMsgCore, hb, ih2.1, ih2.2]
      | some r =>
        have hr : r.handled = false := by simpa [nonStopping, hb] using hg
        have ih2 := ih (if r.autoRemove then reg.filter (fun x => x.hid ≠ g.hid) else reg)
          (fun x hx => hall x (by simp [hx]))
        simp only [ne_eq, decide_not] at ih2
        constructor <;> simp [handleMsgCore, hb, hr, ih2.1, ih2.2]

/-- C10: in `Signal._handleMessage` an exception thrown by a registered
handler (and likewise a malformed JSON payload) is caught by the
surrounding `try`/`catch` and only logged — `_handleMessage` returns
normally rather than propagating — but the handlers registered after the
throwing one are not invoked for that message. -/
theorem signal_handler_exception_logged {E} (pre post reg : List (SigHandler E))
    (h : SigHandler E) (e : E)
    (hpre : ∀ g ∈ pre, nonStopping g = true) (hthrow : h.behavior = .throws e) :
    (handleMessage true (pre ++ h :: post) reg).1 = pre.map SigHandler.hid ++ [h.hid]
  ∧ (handleMessage true (pre ++ h :: post) reg).2.2 = true
  ∧ ∀ (snapshot reg2 : List (SigHandler E)), handleMessage false snapshot reg2 = ([], reg2, true) := by
  obtain ⟨h1, h2⟩ := handleMsgCore_throw h e post hthrow pre reg hpre
  rcases hmeq : handleMsgCore (pre ++ h :: post) reg with ⟨inv, rg, err⟩
  rw [hmeq] at h1 h2
  simp only at h1 h2
  subst h2
  refine ⟨?_, ?_, fun snapshot reg2 => rfl⟩
  · simp [handleMessage, hmeq, h1]
  · simp [handleMessage, hmeq]

theorem signal_handler_exception_logged_witness :
    (handleMessage true sigHandlersEx sigHandlersEx).1 = [0, 1]
  ∧ (handleMessage true sigHandlersEx sigHandlersEx).2.2 = true := by
  have h := signal_handler_exception_logged (E := String) [⟨0, .returns none⟩]
    [⟨2, .returns none⟩] sigHandlersEx ⟨1, .throws "boom"⟩ "boom" (by decide) rfl
  exact ⟨h.1.trans (by decide), h.2.1⟩

/-! ### `Signal.connect` -/

theorem connectCall_inflight (st : ConnState) (p : Nat)
    (h : st.connectionPromise = some p) : connectCall st = (st, .awaitShared p) := by
  simp [connectCall, h]

theorem connectCalls_inflight (p : Nat) :
    ∀ (n : Nat) (st : ConnState), st.connectionPromise = some p →
      connectCalls st n = (st, List.replicate n (.awaitShared p)) := by
  intro n
  induction n with
  | zero => intro st _; rfl
  | succ m ih =>
    intro st h
    simp [connectCalls, connectCall_inflight st p h, ih st h, List.replicate]

/-- C2: starting from an idle `Signal` (no memoized promise, no socket),
any number `n ≥ 1` of `connect()` calls within the same in-flight window
invokes `_performConnect` exactly once, and every caller receives the very
same memoized promise — hence all callers observe the one shared outcome,
and on failure that single shared promise rejects once to all of them. -/
theorem signal_connect_idempotent (st : ConnState) (n : Nat)
    (hp : st.connectionPromise = none) (hw : st.wsLive = false) (hn : 1 ≤ n) :
    (connectCalls st n).1.performConnectCalls = st.performConnectCalls + 1
  ∧ (connectCalls st n).2 =
      List.replicate n (ConnectOutcome.awaitShared st.nextPromiseId) := by
  obtain ⟨m, rfl⟩ : ∃ m, n = m + 1 := ⟨n - 1, by omega⟩
  have h1 : connectCall st =
      ({st with connectionPromise := some st.nextPromiseId,
                performConnectCalls := st.performConnectCalls + 1,
                nextPromiseId := st.nextPromiseId + 1},
       .awaitShared st.nextPromiseId) := by
    simp [connectCall, hp, hw]
  have h2 := connectCalls_inflight st.nextPromiseId m
    ({st with connectionPromise := some st.nextPromiseId,
              performConnectCalls := st.performConnectCalls + 1,
              nextPromiseId := st.nextPromiseId + 1}) rfl
  constructor
  · simp [connectCalls, h1, h2]
  · simp [connectCalls, h1, h2, List.replicate]

theorem signal_connect_idempotent_witness :
    (connectCalls connEx 3).1.performConnectCalls = connEx.performConnectCalls + 1
  ∧ (connectCalls connEx 3).2 =
      List.replicate 3 (ConnectOutcome.awaitShared connEx.nextPromiseId) :=
  signal_connect_idempotent connEx 3 rfl rfl (by decide)

/-! ### `Signal` reconnect backoff -/

theorem onClose_abnormal_step (st : ReconnState) (code : Nat)
    (hc : code ≠ 1000) (hlt : st.reconnectAttempts < st.maxReconnectAttempts) :
    onCloseEvt code st =
      ({st with reconnectAttempts := st.reconnectAttempts + 1},
       some (min (st.reconnectDelay * 2 ^ st.reconnectAttempts) 30000)) := by
  simp [onCloseEvt, attemptReconnect, hc, hlt]

theorem closesRun_formula (code : Nat) (hc : code ≠ 1000) :
    ∀ (k : Nat) (st : ReconnState), st.maxReconnectAttempts = 10 →
      st.reconnectDelay = 1000 → st.reconnectAttempts + k ≤ 10 →
      (closesRun code st k).2 =
        (List.range' st.reconnectAttempts k).map
          (fun i => some (min (1000 * 2 ^ i) 30000)) := by
  intro k
  induction k with
  | zero => intro st _ _ _; rfl
  | succ m ih =>
    intro st hmax hdel hle
    have hlt : st.reconnectAttempts < st.maxReconnectAttempts := by omega
    have hstep := onClose_abnormal_step st code hc hlt
    have ihh := ih {st with reconnectAttempts := st.reconnectAttempts + 1}
      (by simp [hmax]) (by simp [hdel]) (by simp; omega)
    rw [hdel] at hstep ihh
    simp [closesRun, hstep, List.range']
    simpa using ihh

/-- C3: on every abnormal close (code ≠ 1000) while the attempt counter is
below the maximum of 10, a reconnect is scheduled whose delay at attempt
counter `a` is `min(_reconnectDelay · 2^a, 30000)`; counting from a fresh
open, the n-th consecutive abnormal close (n = i+1 below) is therefore
scheduled after `min(1000 · 2^(n-1), 30000)` ms, a non-decreasing sequence;
a clean close (code 1000) schedules nothing, and a successful open resets
the counter to 0 and the base delay to 1000 ms. -/
theorem signal_reconnect_backoff (st : ReconnState) (code k : Nat)
    (hc : code ≠ 1000) (hmax : st.maxReconnectAttempts = 10)
    (hlt : st.reconnectAttempts < st.maxReconnectAttempts) (hk : k ≤ 10) :
    onCloseEvt code st =
      ({st with reconnectAttempts := st.reconnectAttempts + 1},
       some (min (st.reconnectDelay * 2 ^ st.reconnectAttempts) 30000))
  ∧ (closesRun code (onOpenEvt st) k).2 =
      (List.range k).map (fun i => some (min (1000 * 2 ^ i) 30000))
  ∧ (∀ i j : Nat, i ≤ j → min (1000 * 2 ^ i) 30000 ≤ min (1000 * 2 ^ j) 30000)
  ∧ onCloseEvt 1000 st = (st, none)
  ∧ (onOpenEvt st).reconnectAttempts = 0 ∧ (onOpenEvt st).reconnectDelay = 1000 := by
  refine ⟨onClose_abnormal_step st code hc hlt, ?_, ?_, ?_, rfl, rfl⟩
  · have h := closesRun_formula code hc k (onOpenEvt st)
      (by simp [onOpenEvt, hmax]) rfl (by simp [onOpenEvt]; omega)
    simpa [List.range_eq_range', onOpenEvt] using h
  · intro i j hij
    refine min_le_min ?_ le_rfl
    exact Nat.mul_le_mul_left 1000 (Nat.pow_le_pow_right (by norm_num) hij)
  · simp [onCloseEvt]

theorem signal_reconnect_backoff_witness :
    (closesRun 1006 (onOpenEvt reconnInit) 3).2 = [some 1000, some 2000, some 4000]
  ∧ onCloseEvt 1000 reconnInit = (reconnInit, none) := by
  have h := signal_reconnect_backoff reconnInit 1006 3 (by decide) rfl (by decide) (by decide)
  exact ⟨h.2.1.trans (by decide), h.2.2.2.1⟩

/-! ### `Signal` leases and auto-disconnect -/

theorem scheduleAutoDisconnect_inv (st : LeaseState) :
    (scheduleAutoDisconnect st).timer.isSome → (scheduleAutoDisconnect st).locks = [] := by
  simp only [scheduleAutoDisconnect, clearAutoDisconnect]
  split
  · next hcond =>
    intro _
    rw [Bool.and_eq_true] at hcond
    simpa [List.isEmpty_iff] using hcond.2
  · intro h
    simp at h

theorem leaseStep_disc (st : LeaseState) (e : LeaseEvent)
    (h : (leaseStep st e).2 = true) :
    st.locks = [] ∧ ∃ d t, st.timer = some d ∧ e = .timerFire t ∧ d ≤ t := by
  cases e with
  | acquire i => simp [leaseStep] at h
  | release i => simp [leaseStep] at h
  | socketOpen => simp [leaseStep] at h
  | timerFire t =>
    simp only [leaseStep, timerFireStep] at h
    split at h
    · simp at h
    · next d hT =>
      split at h
      · simp at h
      · next hge =>
        split at h
        · next hcond =>
          rw [Bool.and_eq_true] at hcond
          have hl : st.locks = [] := by simpa [List.isEmpty_iff] using hcond.2
          exact ⟨hl, d, t, hT, rfl, by omega⟩
        · simp at h

theorem lease_inv_step (st : LeaseState) (e : LeaseEvent)
    (hinv : st.timer.isSome → st.locks = []) :
    (leaseStep st e).1.timer.isSome → (leaseStep st e).1.locks = [] := by
  cases e with
  | acquire i =>
    intro h
    simp [leaseStep, acquireLock, clearAutoDisconnect] at h
  | release i => exact scheduleAutoDisconnect_inv _
  | socketOpen => exact scheduleAutoDisconnect_inv _
  | timerFire t =>
    intro h
    rcases hT : st.timer with _ | d
    · have hstep : leaseStep st (.timerFire t) = (st, false) := by
        simp [leaseStep, timerFireStep, hT]
      rw [hstep] at h ⊢
      rw [hT] at h
      simp at h
    · by_cases hlt : t < d
      · have hstep : leaseStep st (.timerFire t) = (st, false) := by
          simp [leaseStep, timerFireStep, hT, hlt]
        rw [hstep] at h ⊢
        exact hinv h
      · have hstep2 : (leaseStep st (.timerFire t)).1.timer = none := by
          simp only [leaseStep, timerFireStep, hT]
          rw [if_neg hlt]
          split <;> rfl
        rw [hstep2] at h
        simp at h

theorem leaseTraceOK_of_inv :
    ∀ (evs : List LeaseEvent) (st : LeaseState),
      (st.timer.isSome → st.locks = []) → leaseTraceOK st evs := by
  intro evs
  induction evs with
  | nil => intro st _; trivial
  | cons e es ih =>
    intro st hinv
    exact ⟨fun h => leaseStep_disc st e h,
           fun i hei => by subst hei; rfl,
           lease_inv_step st e hinv,
           ih _ (lease_inv_step st e hinv)⟩

/-- C1: starting from the constructor state, along every sequence of
`acquireLock`/`releaseLock` calls, socket opens and timer callbacks, the
socket is never auto-disconnected while the lease set is non-empty (every
disconnecting step has an empty lock set and is a timer callback firing no
earlier than the scheduled `autoDisconnectDelay`); every `acquireLock`
cancels any pending auto-disconnect timer; and a pending timer only ever
coexists with an empty lease set, i.e. the timer is (re)armed only when the
set becomes empty. -/
theorem signal_lease_invariant (evs : List LeaseEvent) : leaseTraceOK leaseInit evs :=
  leaseTraceOK_of_inv evs leaseInit (by simp [leaseInit])

/-! ### `Realtime` correlation -/

theorem filter_filter_imp {α : Type} (p q : α → Bool)
    (h : ∀ a, p a = true → q a = true) :
    ∀ l : List α, (l.filter q).filter p = l.filter p := by
  intro l
  induction l with
  | nil => rfl
  | cons a t ih =>
    cases hq : q a
    · cases hp : p a
      · simp [List.filter_cons, hq, hp, ih]
      · exact absurd (h a hp) (by simp [hq])
    · simp [List.filter_cons, hq, ih]

theorem deliverAckGo_cases (Y : String) (st : RtState) :
    ∀ os : List String, deliverAckGo Y st os = st ∨ deliverAckGo Y st os = ackRemove Y st := by
  intro os
  induction os with
  | nil => left; rfl
  | cons o t ih =>
    by_cases h : Y ≠ o
    · simpa [deliverAckGo, h] using ih
    · push_neg at h
      subst h
      right
      simp [deliverAckGo]

theorem deliverErrorGo_cases (Y : String) (st : RtState) :
    ∀ os : List String, deliverErrorGo Y st os = (st, []) ∨
      deliverErrorGo Y st os = (removeSubscription Y st, [Y]) := by
  intro os
  induction os with
  | nil => left; rfl
  | cons o t ih =>
    by_cases h : Y ≠ o
    · simpa [deliverErrorGo, h] using ih
    · push_neg at h
      subst h
      right
      simp [deliverErrorGo]

theorem deliverErrorGo_mem (X : String) (st : RtState) :
    ∀ os : List String, X ∈ os →
      deliverErrorGo X st os = (removeSubscription X st, [X]) := by
  intro os
  induction os with
  | nil => intro h; simp at h
  | cons o t ih =>
    intro hmem
    by_cases h : X ≠ o
    · have ht : X ∈ t := by
        rcases List.mem_cons.mp hmem with h1 | h1
        · exact absurd h1 h
        · exact h1
      simp [deliverErrorGo, h, ih ht]
    · push_neg at h
      subst h
      simp [deliverErrorGo]

/-- C4: for a subscription correlated by id `X`, delivering `ack{id:Y}` or
`error{id:Y}` with `Y ≠ X` leaves `X`'s subscription entry, its ack, error
and data handlers, and its deactivation status unchanged (an ack never
touches the subscription list at all); delivering `error{id:X}` runs
`removeSubscription` for exactly the subscription correlated with `X`:
precisely `X` is deactivated, its three handlers are removed, its entry is
dropped, and every other subscription's entries and handlers survive. -/
theorem realtime_message_correlation (st : RtState) (X Y : String)
    (hne : Y ≠ X) (hmem : X ∈ st.errOwners) :
    (deliverAck Y st).subs = st.subs
  ∧ (deliverAck Y st).dataOwners = st.dataOwners
  ∧ (deliverAck Y st).ackOwners.filter (fun o => o = X) =
      st.ackOwners.filter (fun o => o = X)
  ∧ (deliverAck Y st).errOwners.filter (fun o => o = X) =
      st.errOwners.filter (fun o => o = X)
  ∧ (deliverError Y st).1.subs.filter (fun s => s.sid = X) =
      st.subs.filter (fun s => s.sid = X)
  ∧ (deliverError Y st).1.ackOwners.filter (fun o => o = X) =
      st.ackOwners.filter (fun o => o = X)
  ∧ (deliverError Y st).1.errOwners.filter (fun o => o = X) =
      st.errOwners.filter (fun o => o = X)
  ∧ (deliverError Y st).1.dataOwners.filter (fun o => o = X) =
      st.dataOwners.filter (fun o => o = X)
  ∧ X ∉ (deliverError Y st).2
  ∧ deliverError X st = (removeSubscription X st, [X])
  ∧ (removeSubscription X st).subs = st.subs.filter (fun s => s.sid ≠ X)
  ∧ (removeSubscription X st).ackOwners = st.ackOwners.filter (fun o => o ≠ X)
  ∧ (removeSubscription X st).errOwners = st.errOwners.filter (fun o => o ≠ X)
  ∧ (removeSubscription X st).dataOwners = st.dataOwners.filter (fun o => o ≠ X) := by
  have hXY : ∀ a : String, decide (a = X) = true → decide (a ≠ Y) = true := by
    intro a ha
    have h1 : a = X := of_decide_eq_true ha
    subst h1
    simpa using Ne.symm hne
  have hsubXY : ∀ s : RtSub, decide (s.sid = X) = true → decide (s.sid ≠ Y) = true := by
    intro s hs
    have h1 : s.sid = X := of_decide_eq_true hs
    rw [decide_eq_true_eq] at hs ⊢
    rw [h1]
    exact Ne.symm hne
  have hack := deliverAckGo_cases Y st st.ackOwners
  have herr := deliverErrorGo_cases Y st st.errOwners
  refine ⟨?_, ?_, ?_, ?_, ?_, ?_, ?_, ?_, ?_, ?_, rfl, rfl, rfl, rfl⟩
  · rcases hack with h | h <;> rw [deliverAck, h]
    all_goals rfl
  · rcases hack with h | h <;> rw [deliverAck, h]
    all_goals rfl
  · rcases hack with h | h
    · rw [deliverAck, h]
    · rw [deliverAck, h]
      exact filter_filter_imp _ _ hXY st.ackOwners
  · rcases hack with h | h
    · rw [deliverAck, h]
    · rw [deliverAck, h]
      exact filter_filter_imp _ _ hXY st.errOwners
  · rcases herr with h | h
    · rw [deliverError, h]
    · rw [deliverError, h]
      exact filter_filter_imp _ _ hsubXY st.subs
  · rcases herr with h | h
    · rw [deliverError, h]
    · rw [deliverError, h]
      exact filter_filter_imp _ _ hXY st.ackOwners
  · rcases herr with h | h
    · rw [deliverError, h]
    · rw [deliverError, h]
      exact filter_filter_imp _ _ hXY st.errOwners
  · rcases herr with h | h
    · rw [deliverError, h]
    · rw [deliverError, h]
      exact filter_filter_imp _ _ hXY st.dataOwners
  · rcases herr with h | h <;> rw [deliverError, h]
    · simp
    · simpa using Ne.symm hne
  · rw [deliverError]
    exact deliverErrorGo_mem X st st.errOwners hmem

theorem realtime_message_correlation_witness :
    deliverError "x" rtEx = (removeSubscription "x" rtEx, ["x"])
  ∧ deliverError "x" rtEx =
      (⟨[⟨"z", true⟩], ["z"], ["z"], ["z"], true⟩, ["x"])
  ∧ (deliverAck "y" rtEx).subs = rtEx.subs := by
  have h := realtime_message_correlation rtEx "x" "y" (by decide) (by decide)
  have hd := h.2.2.2.2.2.2.2.2.2.1
  exact ⟨hd, hd.trans (by decide), h.1⟩

/-! ### `EventSource` frame parser -/

theorem procLine_preserves (acc : ParseAcc) (st : ESState) (l : List Char) :
    (procLine acc st l).2.1.lineEnding = st.lineEnding ∧
    (procLine acc st l).2.1.lastIndexProcessed = st.lastIndexProcessed := by
  refine ⟨?_, ?_⟩ <;>
    (simp only [procLine]
     repeat' split
     all_goals rfl)

theorem procLines_preserves :
    ∀ (ls : List (List Char)) (acc : ParseAcc) (st : ESState),
      (procLines acc st ls).1.lineEnding = st.lineEnding ∧
      (procLines acc st ls).1.lastIndexProcessed = st.lastIndexProcessed := by
  intro ls
  induction ls with
  | nil => intro acc st; exact ⟨rfl, rfl⟩
  | cons l t ih =>
    intro acc st
    have h1 := procLine_preserves acc st l
    have h2 := ih (procLine acc st l).1 (procLine acc st l).2.1
    exact ⟨h2.1.trans h1.1, h2.2.trans h1.2⟩

theorem computeLineEnding_stable (st2 : ESState) (B : List Char)
    (v : Option (List Char)) (h : st2.lineEnding = v)
    (hv : v = none → detectNewlineChar B = none) :
    computeLineEnding st2 B = v := by
  unfold computeLineEnding
  cases v with
  | some l => rw [h]
  | none =>
    rw [h]
    exact hv rfl

theorem processIncoming_early (st : ESState) (B : List Char)
    (h : lastDoubleNewlineIdx (computeLineEnding st B) B ≤ (st.lastIndexProcessed : Int)) :
    processIncoming st B = ({st with lineEnding := computeLineEnding st B}, []) := by
  simp only [processIncoming]
  rw [if_pos h]

theorem processIncoming_main (st : ESState) (B : List Char) (l : List Char)
    (hle : computeLineEnding st B = some l)
    (h : ¬ lastDoubleNewlineIdx (computeLineEnding st B) B ≤ (st.lastIndexProcessed : Int)) :
    processIncoming st B =
      procLines {type := none, id := none, data := []}
        {st with lineEnding := some l,
                 lastIndexProcessed := (lastDoubleNewlineIdx (some l) B).toNat}
        (splitOnSeq l
          ((B.take (lastDoubleNewlineIdx (some l) B).toNat).drop st.lastIndexProcessed)) := by
  rw [hle] at h
  simp only [processIncoming, hle]
  rw [if_neg h]

/-- C5: the frame parser never rescans consumed bytes: for every parser
state and every buffer contents `B`, running `_processIncoming` twice in a
row on `B` (no new bytes in between) dispatches zero events on the second
run, because the second run's last double-newline boundary is not beyond
`lastIndexProcessed` recorded by the first run. -/
theorem eventsource_process_idempotent (st : ESState) (B : List Char) :
    (processIncoming (processIncoming st B).1 B).2 = [] := by
  have hdet : computeLineEnding st B = none → detectNewlineChar B = none := by
    unfold computeLineEnding
    cases h : st.lineEnding with
    | some l => intro hcontra; exact absurd hcontra (by simp)
    | none => exact id
  by_cases hc0 : lastDoubleNewlineIdx (computeLineEnding st B) B ≤ (st.lastIndexProcessed : Int)
  · rw [processIncoming_early st B hc0]
    have hle2 : computeLineEnding {st with lineEnding := computeLineEnding st B} B =
        computeLineEnding st B :=
      computeLineEnding_stable _ B _ rfl hdet
    have h2 : lastDoubleNewlineIdx
          (computeLineEnding {st with lineEnding := computeLineEnding st B} B) B ≤
        (({st with lineEnding := computeLineEnding st B}).lastIndexProcessed : Int) := by
      rw [hle2]
      exact hc0
    rw [processIncoming_early _ B h2]
  · obtain ⟨l, hle⟩ : ∃ l, computeLineEnding st B = some l := by
      cases hE : computeLineEnding st B with
      | some l => exact ⟨l, rfl⟩
      | none =>
        exfalso
        apply hc0
        rw [hE]
        simp [lastDoubleNewlineIdx]
        omega
    have h0 : (0 : Int) ≤ lastDoubleNewlineIdx (some l) B := by
      rw [hle] at hc0
      omega
    rw [processIncoming_main st B l hle hc0]
    have hpres := procLines_preserves
      (splitOnSeq l
        ((B.take (lastDoubleNewlineIdx (some l) B).toNat).drop st.lastIndexProcessed))
      {type := none, id := none, data := []}
      {st with lineEnding := some l,
               lastIndexProcessed := (lastDoubleNewlineIdx (some l) B).toNat}
    have hle2 : computeLineEnding
        (procLines {type := none, id := none, data := []}
          {st with lineEnding := some l,
                   lastIndexProcessed := (lastDoubleNewlineIdx (some l) B).toNat}
          (splitOnSeq l
            ((B.take (lastDoubleNewlineIdx (some l) B).toNat).drop st.lastIndexProcessed))).1
        B = some l :=
      computeLineEnding_stable _ B _ hpres.1 (by intro hcontra; exact absurd hcontra (by simp))
    have h2 : lastDoubleNewlineIdx
        (computeLineEnding
          (procLines {type := none, id := none, data := []}
            {st with lineEnding := some l,
                     lastIndexProcessed := (lastDoubleNewlineIdx (some l) B).toNat}
            (splitOnSeq l
              ((B.take (lastDoubleNewlineIdx (some l) B).toNat).drop st.lastIndexProcessed))).1
          B) B ≤
        (((procLines {type := none, id := none, data := []}
            {st with lineEnding := some l,
                     lastIndexProcessed := (lastDoubleNewlineIdx (some l) B).toNat}
            (splitOnSeq l
              ((B.take (lastDoubleNewlineIdx (some l) B).toNat).drop st.lastIndexProcessed))).1).lastIndexProcessed : Int) := by
      rw [hle2, hpres.2]
      simp only []
      rw [Int.toNat_of_nonneg h0]
    rw [processIncoming_early _ B h2]

/-- C6 counterexample: from the fresh parser state, the buffer
`"data:x\nevent:foo\n\n"` reaches its blank line with a non-empty data
accumulator (one data line `"x"`) and accumulated type `"foo"`, yet zero
events are dispatched — a blank-line flush with non-empty data does not
always dispatch an event. -/
theorem eventsource_flush_semantics_cex :
    (processIncoming esInit ("data:x\nevent:foo\n\n".toList)).2 = []
  ∧ procLine ⟨some ("foo".toList), none, ["x".toList]⟩ esInit [] =
      (⟨none, none, []⟩, esInit, []) := by
  constructor <;> decide

/-- C6 (amended): on every blank line, with an empty accumulated data
buffer nothing is dispatched and the accumulator is left untouched (an
event with a type but no data lines is dropped silently); with a non-empty
data buffer the accumulator is always reset (type cleared, data cleared)
and exactly one event is dispatched when the effective type (`data` when
unset or empty) is `data`, `open`, `close` or `error` — while an
accumulator carrying any other type is reset without dispatching any
event. -/
theorem eventsource_flush_semantics (acc : ParseAcc) (st : ESState) (raw : List Char)
    (hblank : trimChars raw = []) :
    (acc.data = [] → procLine acc st raw = (acc, st, []))
  ∧ (acc.data ≠ [] → effectiveType acc.type = "data".toList →
      procLine acc st raw =
        ({acc with type := none, data := []}, st, [ESEvent.dataEvt acc.data.flatten]))
  ∧ (acc.data ≠ [] → effectiveType acc.type = "open".toList →
      procLine acc st raw = ({acc with type := none, data := []}, st, [ESEvent.openEvt]))
  ∧ (acc.data ≠ [] → effectiveType acc.type = "close".toList →
      procLine acc st raw = ({acc with type := none, data := []}, st, [ESEvent.closeEvt]))
  ∧ (acc.data ≠ [] → effectiveType acc.type = "error".toList →
      procLine acc st raw =
        ({acc with type := none, data := []}, st,
         [ESEvent.errorEvt ((acc.data.intersperse ['\n']).flatten)]))
  ∧ (acc.data ≠ [] →
      effectiveType acc.type ≠ "data".toList →
      effectiveType acc.type ≠ "open".toList →
      effectiveType acc.type ≠ "close".toList →
      effectiveType acc.type ≠ "error".toList →
      procLine acc st raw = ({acc with type := none, data := []}, st, [])) := by
  have hline : procLine acc st raw = ((flushEvent acc).2, st, (flushEvent acc).1) := by
    simp only [procLine]
    rw [hblank]
    rfl
  rw [hline]
  refine ⟨?_, ?_, ?_, ?_, ?_, ?_⟩
  · intro hdata
    simp [flushEvent, hdata]
  all_goals intro hdata
  all_goals
    have hne : acc.data.isEmpty = false := by
      cases hD : acc.data
      · exact absurd hD hdata
      · rfl
  · intro htype
    simp [flushEvent, hne, htype]
  · intro htype
    simp [flushEvent, hne, htype]
  · intro htype
    simp [flushEvent, hne, htype]
  · intro htype
    simp [flushEvent, hne, htype]
  · intro h1 h2 h3 h4
    have h1b : effectiveType acc.type ≠ ['d', 'a', 't', 'a'] := h1
    have h2b : effectiveType acc.type ≠ ['o', 'p', 'e', 'n'] := h2
    have h3b : effectiveType acc.type ≠ ['c', 'l', 'o', 's', 'e'] := h3
    have h4b : effectiveType acc.type ≠ ['e', 'r', 'r', 'o', 'r'] := h4
    simp [flushEvent, hne, h1b, h2b, h3b, h4b]

theorem eventsource_flush_semantics_witness :
    procLine ⟨none, none, ["x".toList]⟩ esInit [] =
      (⟨none, none, []⟩, esInit, [ESEvent.dataEvt ("x".toList)]) := by
  have h := eventsource_flush_semantics ⟨none, none, ["x".toList]⟩ esInit [] rfl
  exact (h.2.1 (by decide) (by decide)).trans (by decide)

end Calljmp
